import Mathlib

/-!
Verification of the rei-tracer geometric core: the `vec3` value type
(src/include/vec3.hpp) and the `ray` value type (src/include/ray.hpp).

Modelling choices:
* C++ `double` is embedded as `EDouble`: a finite rational value, `+Inf`,
  `-Inf`, or `NaN`, with IEEE-754 special-value propagation rules for the
  arithmetic operations the library uses.  Finite arithmetic is exact
  rational arithmetic (rounding is abstracted away; every claim below
  compares results of identical operation sequences or exact operations,
  so rounding never separates the two sides).  The model does not track
  the sign of zero; `fin 0` plays the role of `+0`, which matches the
  behaviour of IEEE `==` where `-0 == +0`.
* Equality of `EDouble` values is structural Lean equality (`nan = nan`
  holds), i.e. "the operations produce the same value", not IEEE `==`.
* `std::array<double, 3>` is embedded as a list of `EDouble` together
  with a proof that its length is 3, so that bounds-checked access is
  expressible.  C++ `unsigned int` indices are embedded as `Nat`
  (a negative C++ literal converts to a large unsigned value, which the
  guard `i > 2` also rejects).
* In-place mutation (`operator+=`, `operator*=`, `operator/=`, writes
  through the non-const `operator[]`) is embedded by explicit state
  passing: the function returns the updated vector, which in the C++
  code is both the final state of `*this` and the returned reference.
* `std::sqrt` on nonnegative finite input is modelled by `Rat.sqrt`, a
  computable stand-in that is exact on perfect squares; no claim below
  depends on the value of a square root of a non-square.
-/

/-- The single error kind of the library: `operator[]` (const and
non-const) throws when the index is out of range (vec3.hpp lines 77-96);
no other operation can fail. -/
inductive Err where
  | IndexOutOfRange
deriving DecidableEq

/-- IEEE-754 double: a finite (exact rational) value, an infinity, or NaN. -/
inductive EDouble where
  | fin (q : ℚ)
  | posInf
  | negInf
  | nan
deriving DecidableEq

namespace EDouble

/-- IEEE negation: flips the sign, `-NaN` stays NaN. -/
def neg : EDouble → EDouble
  | fin q => fin (-q)
  | posInf => negInf
  | negInf => posInf
  | nan => nan

/-- IEEE addition with special-value propagation; `+Inf + -Inf = NaN`. -/
def add : EDouble → EDouble → EDouble
  | nan, _ => nan
  | _, nan => nan
  | fin a, fin b => fin (a + b)
  | fin _, posInf => posInf
  | fin _, negInf => negInf
  | posInf, fin _ => posInf
  | negInf, fin _ => negInf
  | posInf, posInf => posInf
  | posInf, negInf => nan
  | negInf, posInf => nan
  | negInf, negInf => negInf

/-- IEEE subtraction, which coincides with adding the negated operand
(up to the sign of zero, untracked here). -/
def sub (a b : EDouble) : EDouble := add a (neg b)

/-- IEEE multiplication with special-value propagation; `0 * Inf = NaN`. -/
def mul : EDouble → EDouble → EDouble
  | nan, _ => nan
  | _, nan => nan
  | fin a, fin b => fin (a * b)
  | fin a, posInf => if 0 < a then posInf else if a < 0 then negInf else nan
  | fin a, negInf => if 0 < a then negInf else if a < 0 then posInf else nan
  | posInf, fin b => if 0 < b then posInf else if b < 0 then negInf else nan
  | negInf, fin b => if 0 < b then negInf else if b < 0 then posInf else nan
  | posInf, posInf => posInf
  | posInf, negInf => negInf
  | negInf, posInf => negInf
  | negInf, negInf => posInf

/-- IEEE division with special-value propagation; a nonzero finite value
divided by (unsigned) zero gives a signed infinity, `0 / 0 = NaN`,
`x / Inf = 0`, `Inf / Inf = NaN`, `Inf / 0 = Inf`. -/
def div : EDouble → EDouble → EDouble
  | nan, _ => nan
  | _, nan => nan
  | fin a, fin b =>
      if b = 0 then (if a = 0 then nan else if 0 < a then posInf else negInf)
      else fin (a / b)
  | fin _, posInf => fin 0
  | fin _, negInf => fin 0
  | posInf, fin b => if 0 ≤ b then posInf else negInf
  | negInf, fin b => if 0 ≤ b then negInf else posInf
  | posInf, posInf => nan
  | posInf, negInf => nan
  | negInf, posInf => nan
  | negInf, negInf => nan

/-- IEEE square root: NaN on negative input (and NaN), `sqrt(+Inf) = +Inf`;
on nonnegative finite input, `Rat.sqrt` stands in for the correctly
rounded result (exact on perfect squares, in particular at 0). -/
def sqrt : EDouble → EDouble
  | nan => nan
  | negInf => nan
  | posInf => posInf
  | fin q => if q < 0 then nan else fin (Rat.sqrt q)

/-- Holds (`true`) exactly on finite values. -/
def isFinite : EDouble → Bool
  | fin _ => true
  | _ => false

end EDouble

/-- The `vec3` class: three doubles stored contiguously
(`std::array<double, 3> e`, vec3.hpp line 17). -/
structure vec3 where
  e : List EDouble
  h3 : e.length = 3

instance : DecidableEq vec3 := fun v w =>
  decidable_of_iff (v.e = w.e) (by cases v; cases w; simp)

namespace vec3

/-- Source `vec3()`: the zero vector (vec3.hpp lines 22-25). -/
def zero : vec3 := ⟨[.fin 0, .fin 0, .fin 0], rfl⟩

/-- Source `vec3(x, y, z)` (vec3.hpp lines 31-36). -/
def mk3 (x y z : EDouble) : vec3 := ⟨[x, y, z], rfl⟩

/-- Source `vec3::x()`: unchecked read of `e[0]` (vec3.hpp line 42). -/
def x (v : vec3) : EDouble := v.e.get ⟨0, by rw [v.h3]; omega⟩

/-- Source `vec3::y()`: unchecked read of `e[1]` (vec3.hpp line 46). -/
def y (v : vec3) : EDouble := v.e.get ⟨1, by rw [v.h3]; omega⟩

/-- Source `vec3::z()`: unchecked read of `e[2]` (vec3.hpp line 50). -/
def z (v : vec3) : EDouble := v.e.get ⟨2, by rw [v.h3]; omega⟩

/-- The raw (unchecked) array read `e[i]`, exposed as an `Option` so that
in-boundedness of the accesses behind the guard is expressible. -/
def rawRead (v : vec3) (i : ℕ) : Option EDouble := v.e.get? i

/-- Source `vec3::operator[] (const)` (vec3.hpp lines 77-83): guard `i > 2`,
throw on failure, otherwise the in-range array read `e[i]`. -/
def idxGet (v : vec3) (i : ℕ) : Except Err EDouble :=
  if h : i > 2 then .error .IndexOutOfRange
  else .ok (v.e.get ⟨i, by rw [v.h3]; omega⟩)

/-- Source `vec3::operator[] (non-const)` (vec3.hpp lines 90-96) used as the
write path: guard `i > 2`, throw on failure, otherwise write `e[i] = a`
through the returned reference and yield the updated vector. -/
def idxSet (v : vec3) (i : ℕ) (a : EDouble) : Except Err vec3 :=
  if i > 2 then .error .IndexOutOfRange
  else .ok ⟨v.e.set i a, by rw [List.length_set, v.h3]⟩

/-- Unary `vec3::operator-` (vec3.hpp line 69): all components negated,
the operand untouched. -/
def neg (v : vec3) : vec3 :=
  mk3 (EDouble.neg v.x) (EDouble.neg v.y) (EDouble.neg v.z)

/-- Source `vec3::operator+=` (vec3.hpp lines 103-109), state-passing form. -/
def add_assign (v w : vec3) : vec3 :=
  mk3 (EDouble.add v.x w.x) (EDouble.add v.y w.y) (EDouble.add v.z w.z)

/-- Source `vec3::operator*=` (vec3.hpp lines 116-122), state-passing form. -/
def mul_assign (v : vec3) (t : EDouble) : vec3 :=
  mk3 (EDouble.mul v.x t) (EDouble.mul v.y t) (EDouble.mul v.z t)

/-- Source `vec3::operator/=` (vec3.hpp lines 129-132): defined in the source as
`*this *= 1 / t`. -/
def div_assign (v : vec3) (t : EDouble) : vec3 :=
  v.mul_assign (EDouble.div (.fin 1) t)

/-- Binary `vec3::operator+` (vec3.hpp lines 147-150). -/
def add (u v : vec3) : vec3 :=
  mk3 (EDouble.add u.x v.x) (EDouble.add u.y v.y) (EDouble.add u.z v.z)

/-- Binary `vec3::operator-` (vec3.hpp lines 157-160). -/
def sub (u v : vec3) : vec3 :=
  mk3 (EDouble.sub u.x v.x) (EDouble.sub u.y v.y) (EDouble.sub u.z v.z)

/-- Hadamard `vec3::operator*` (vec3.hpp lines 167-170). -/
def hmul (u v : vec3) : vec3 :=
  mk3 (EDouble.mul u.x v.x) (EDouble.mul u.y v.y) (EDouble.mul u.z v.z)

/-- Source `vec3::operator/(double)` (vec3.hpp lines 172-175): componentwise
division by the scalar. -/
def divScalar (v : vec3) (t : EDouble) : vec3 :=
  mk3 (EDouble.div v.x t) (EDouble.div v.y t) (EDouble.div v.z t)

/-- Source `vec3::dot` (vec3.hpp lines 182-185): `(x*x') + (y*y') + (z*z')`,
left-associated as in the source. -/
def dot (u v : vec3) : EDouble :=
  EDouble.add (EDouble.add (EDouble.mul u.x v.x) (EDouble.mul u.y v.y))
    (EDouble.mul u.z v.z)

/-- Source `vec3::cross` (vec3.hpp lines 192-197): the right-handed formula. -/
def cross (u v : vec3) : vec3 :=
  mk3 (EDouble.sub (EDouble.mul u.y v.z) (EDouble.mul u.z v.y))
    (EDouble.sub (EDouble.mul u.z v.x) (EDouble.mul u.x v.z))
    (EDouble.sub (EDouble.mul u.x v.y) (EDouble.mul u.y v.x))

/-- Source `vec3::length_squared` (vec3.hpp lines 221-224). -/
def length_squared (v : vec3) : EDouble :=
  EDouble.add (EDouble.add (EDouble.mul v.x v.x) (EDouble.mul v.y v.y))
    (EDouble.mul v.z v.z)

/-- Source `vec3::length` (vec3.hpp lines 212-215): `sqrt(length_squared())`. -/
def length (v : vec3) : EDouble := EDouble.sqrt v.length_squared

/-- Source `vec3::unit_vector` (vec3.hpp lines 203-206): `*this / this->length()`. -/
def unit_vector (v : vec3) : vec3 := v.divScalar v.length

/-- All three components are finite values. -/
def allFinite (v : vec3) : Bool :=
  v.x.isFinite && v.y.isFinite && v.z.isFinite

end vec3

/-- Free `operator*(double, vec3)` (vec3.hpp lines 227-230). -/
def smulLeft (t : EDouble) (v : vec3) : vec3 :=
  vec3.mk3 (EDouble.mul t v.x) (EDouble.mul t v.y) (EDouble.mul t v.z)

/-- Free `operator*(vec3, double)` (vec3.hpp lines 232-235): defined in
the source as `return t * v`. -/
def smulRight (v : vec3) (t : EDouble) : vec3 := smulLeft t v

/-- The `ray` class (ray.hpp): an origin point and a direction vector. -/
structure ray where
  start : vec3
  direction : vec3

namespace ray

/-- Source `ray::origin()` (ray.hpp line 34). -/
def origin (r : ray) : vec3 := r.start

/-- Source `ray::dir()` (ray.hpp line 38). -/
def dir (r : ray) : vec3 := r.direction

/-- Source `ray::at(t)` (ray.hpp lines 45-48): `start + (t * direction)`. -/
def atParam (r : ray) (t : EDouble) : vec3 :=
  r.start.add (smulLeft t r.direction)

end ray

/-! ### Helper lemmas -/

/-- Every `vec3` is the triple of its components. -/
theorem vec3.eta (v : vec3) : v = vec3.mk3 v.x v.y v.z := by
  obtain ⟨l, h⟩ := v
  rcases l with _ | ⟨a, _ | ⟨b, _ | ⟨c, _ | ⟨d, l4⟩⟩⟩⟩ <;> simp at h
  rfl

/-- Componentwise characterisation of `vec3` equality. -/
theorem vec3.eq_iff (u w : vec3) : u = w ↔ u.x = w.x ∧ u.y = w.y ∧ u.z = w.z := by
  constructor
  · rintro rfl; exact ⟨rfl, rfl, rfl⟩
  · rintro ⟨h1, h2, h3⟩
    conv_lhs => rw [vec3.eta u]
    conv_rhs => rw [vec3.eta w]
    rw [h1, h2, h3]

@[simp] theorem vec3.x_mk3 (a b c : EDouble) : (vec3.mk3 a b c).x = a := rfl

@[simp] theorem vec3.y_mk3 (a b c : EDouble) : (vec3.mk3 a b c).y = b := rfl

@[simp] theorem vec3.z_mk3 (a b c : EDouble) : (vec3.mk3 a b c).z = c := rfl

@[simp] theorem vec3.mk3_inj (a b c a' b' c' : EDouble) :
    vec3.mk3 a b c = vec3.mk3 a' b' c' ↔ a = a' ∧ b = b' ∧ c = c' := by
  constructor
  · intro h
    exact ⟨congrArg vec3.x h, congrArg vec3.y h, congrArg vec3.z h⟩
  · rintro ⟨rfl, rfl, rfl⟩; rfl

/-- The zero constructor is the all-zero triple. -/
theorem vec3.zero_def : vec3.zero = vec3.mk3 (.fin 0) (.fin 0) (.fin 0) := rfl

namespace EDouble

/-- IEEE multiplication is commutative (also on special values). -/
theorem mulComm (a b : EDouble) : mul a b = mul b a := by
  cases a <;> cases b <;> simp [mul, mul_comm]

/-- Subtraction is antisymmetric up to negation (exactly, in this model
without signed zeros). -/
theorem subNegRev (p q : EDouble) : sub p q = neg (sub q p) := by
  cases p <;> cases q <;> simp [sub, add, neg, add_comm]

/-- Multiplying by the finite value 1 is the identity. -/
theorem oneMul (c : EDouble) : mul (fin 1) c = c := by
  cases c <;> simp [mul]

/-- Adding the finite value 0 is the identity. -/
theorem addZero (c : EDouble) : add c (fin 0) = c := by
  cases c <;> simp [add]

/-- Adding `0 * q` (a finite product with zero) is the identity. -/
theorem addZeroMul (o : EDouble) (q : ℚ) : add o (mul (fin 0) (fin q)) = o := by
  simp only [mul, zero_mul]
  exact addZero o

/-- Dividing anything by the finite value 0 is never finite. -/
theorem divZeroSpecial (c : EDouble) : (div c (fin 0)).isFinite = false := by
  cases c <;> simp only [div, isFinite] <;> split_ifs <;> simp [isFinite]

/-- Multiplying anything by `+Inf` is never finite. -/
theorem mulPosInfSpecial (c : EDouble) : (mul c posInf).isFinite = false := by
  cases c with
  | fin a => simp only [mul]; split_ifs <;> simp [isFinite]
  | posInf => rfl
  | negInf => rfl
  | nan => rfl

/-- Finiteness means being a `fin` value. -/
theorem isFinite_iff (c : EDouble) : c.isFinite = true ↔ ∃ q, c = fin q := by
  cases c <;> simp [isFinite]

end EDouble

/-! ### Claims -/

/-- C1: for every vector and every index outside {0,1,2}, both the indexed
read (`operator[] const`) and the indexed write (`operator[]` non-const)
fail with the `IndexOutOfRange` error; `IndexOutOfRange` is the only error
kind of the library; and the bounds check is enforced identically on the
read and the write path (one succeeds exactly when the other does). -/
theorem idx_out_of_range_spec :
    (∀ (v : vec3) (i : ℕ), ¬(i = 0 ∨ i = 1 ∨ i = 2) →
      v.idxGet i = .error .IndexOutOfRange ∧
      ∀ a, v.idxSet i a = .error .IndexOutOfRange) ∧
    (∀ err : Err, err = .IndexOutOfRange) ∧
    (∀ (v : vec3) (i : ℕ) (a : EDouble), (v.idxGet i).isOk = (v.idxSet i a).isOk) := by
  refine ⟨?_, ?_, ?_⟩
  · intro v i hi
    have h2 : i > 2 := by omega
    exact ⟨by simp [vec3.idxGet, h2], fun a => by simp [vec3.idxSet, h2]⟩
  · intro err; cases err; rfl
  · intro v i a
    by_cases h : i > 2 <;> simp [vec3.idxGet, vec3.idxSet, h] <;> rfl

/-- Witness for C1 at the vector (1,2,3) and the out-of-range index 5. -/
theorem idx_out_of_range_spec_witness :
    (vec3.mk3 (.fin 1) (.fin 2) (.fin 3)).idxGet 5 = .error .IndexOutOfRange ∧
    (vec3.mk3 (.fin 1) (.fin 2) (.fin 3)).idxSet 5 (.fin 9) = .error .IndexOutOfRange :=
  ⟨(idx_out_of_range_spec.1 (vec3.mk3 (.fin 1) (.fin 2) (.fin 3)) 5 (by decide)).1,
   (idx_out_of_range_spec.1 (vec3.mk3 (.fin 1) (.fin 2) (.fin 3)) 5 (by decide)).2 (.fin 9)⟩

/-- C3: indexed read at 0, 1, 2 of a vector built from (x,y,z) returns x,
y, z respectively; an indexed write at any in-range index followed by an
indexed read at the same index returns the written value, and the other
two components are unchanged. -/
theorem idx_read_write_spec :
    (∀ a b c : EDouble,
      (vec3.mk3 a b c).idxGet 0 = .ok a ∧
      (vec3.mk3 a b c).idxGet 1 = .ok b ∧
      (vec3.mk3 a b c).idxGet 2 = .ok c) ∧
    (∀ (v : vec3) (i : ℕ) (a : EDouble), (i = 0 ∨ i = 1 ∨ i = 2) →
      ∃ v', v.idxSet i a = .ok v' ∧ v'.idxGet i = .ok a ∧
        ∀ j, (j = 0 ∨ j = 1 ∨ j = 2) → j ≠ i → v'.idxGet j = v.idxGet j) := by
  constructor
  · intro a b c
    exact ⟨rfl, rfl, rfl⟩
  · intro v i a hi
    obtain ⟨l, h⟩ := v
    rcases l with _ | ⟨a0, _ | ⟨a1, _ | ⟨a2, _ | ⟨a3, l4⟩⟩⟩⟩ <;> simp at h
    rcases hi with rfl | rfl | rfl
    · refine ⟨_, rfl, rfl, ?_⟩
      rintro j (rfl | rfl | rfl) hne
      · exact absurd rfl hne
      · rfl
      · rfl
    · refine ⟨_, rfl, rfl, ?_⟩
      rintro j (rfl | rfl | rfl) hne
      · rfl
      · exact absurd rfl hne
      · rfl
    · refine ⟨_, rfl, rfl, ?_⟩
      rintro j (rfl | rfl | rfl) hne
      · rfl
      · rfl
      · exact absurd rfl hne

/-- Witness for C3: writing 7 at index 1 of (1,2,3) gives (1,7,3); the
read at index 1 returns 7 and index 0 is unchanged. -/
theorem idx_read_write_spec_witness :
    (vec3.mk3 (.fin 1) (.fin 2) (.fin 3)).idxSet 1 (.fin 7)
        = .ok (vec3.mk3 (.fin 1) (.fin 7) (.fin 3)) ∧
    (vec3.mk3 (.fin 1) (.fin 7) (.fin 3)).idxGet 1 = .ok (.fin 7) ∧
    (vec3.mk3 (.fin 1) (.fin 7) (.fin 3)).idxGet 0
        = (vec3.mk3 (.fin 1) (.fin 2) (.fin 3)).idxGet 0 := by
  obtain ⟨v', h1, h2, h3⟩ :=
    idx_read_write_spec.2 (vec3.mk3 (.fin 1) (.fin 2) (.fin 3)) 1 (.fin 7) (by decide)
  have hv : v' = vec3.mk3 (.fin 1) (.fin 7) (.fin 3) := by
    have hok : Except.ok (ε := Err) v'
        = .ok (vec3.mk3 (.fin 1) (.fin 7) (.fin 3)) := by rw [← h1]; rfl
    exact Except.ok.inj hok
  subst hv
  exact ⟨h1, h2, h3 0 (by decide) (by decide)⟩

/-- C10: for every in-range index i ∈ {0,1,2}, the error branch of both
indexed accessors is unreachable (they return `.ok`), the raw array read
is in range (`rawRead` yields a value, i is below the storage length),
and the raw array write stays inside the 3-element storage (the updated
storage still has length 3). -/
theorem idx_bounds_safety : ∀ (v : vec3) (i : ℕ), (i = 0 ∨ i = 1 ∨ i = 2) →
    (v.idxGet i).isOk = true ∧
    (v.rawRead i).isSome = true ∧
    i < v.e.length ∧
    ∀ a, ∃ v', v.idxSet i a = .ok v' ∧ v'.e.length = 3 := by
  intro v i hi
  have hlt : i < v.e.length := by rw [v.h3]; omega
  have h2 : ¬ i > 2 := by omega
  refine ⟨?_, ?_, hlt, ?_⟩
  · simp [vec3.idxGet, h2, Except.isOk, Except.toBool]
  · rw [vec3.rawRead, List.get?_eq_getElem?]
    simp [List.getElem?_eq_getElem hlt]
  · intro a
    refine ⟨⟨v.e.set i a, by rw [List.length_set, v.h3]⟩, ?_, ?_⟩
    · simp [vec3.idxSet, h2]
    · simp [List.length_set, v.h3]

/-- Witness for C10 at the vector (1,2,3) and index 2. -/
theorem idx_bounds_safety_witness :
    ((vec3.mk3 (.fin 1) (.fin 2) (.fin 3)).idxGet 2).isOk = true ∧
    ((vec3.mk3 (.fin 1) (.fin 2) (.fin 3)).rawRead 2).isSome = true ∧
    2 < (vec3.mk3 (.fin 1) (.fin 2) (.fin 3)).e.length := by
  obtain ⟨h1, h2, h3, h4⟩ :=
    idx_bounds_safety (vec3.mk3 (.fin 1) (.fin 2) (.fin 3)) 2 (by decide)
  exact ⟨h1, h2, h3⟩

/-- C4: scalar multiplication is commutative: `v * t` (vec3 × double) and
`t * v` (double × vec3) produce identical results, componentwise, for the
same operand values. -/
theorem scalar_mul_comm_spec :
    ∀ (v : vec3) (t : EDouble),
      smulRight v t = smulLeft t v ∧
      (smulRight v t).x = (smulLeft t v).x ∧
      (smulRight v t).y = (smulLeft t v).y ∧
      (smulRight v t).z = (smulLeft t v).z :=
  fun _ _ => ⟨rfl, rfl, rfl, rfl⟩

/-- C9: the dot product of a vector with itself is `length_squared`,
computed by the identical sum of componentwise products, so the two agree
exactly (also on non-finite components). -/
theorem dot_self_eq_length_squared : ∀ v : vec3, v.dot v = v.length_squared :=
  fun _ => rfl

/-- C2 as stated is false: for a ray whose direction has a non-finite
component, `at(0)` is not the origin, because IEEE `0 * Inf = NaN` and
`0 + NaN = NaN`.  Concretely, origin (0,0,0), direction (+Inf,0,0). -/
theorem ray_at_zero_cex :
    (ray.mk (vec3.mk3 (.fin 0) (.fin 0) (.fin 0))
        (vec3.mk3 .posInf (.fin 0) (.fin 0))).atParam (.fin 0)
      ≠ (ray.mk (vec3.mk3 (.fin 0) (.fin 0) (.fin 0))
        (vec3.mk3 .posInf (.fin 0) (.fin 0))).origin := by
  simp [ray.atParam, ray.origin, smulLeft, vec3.add, EDouble.mul, EDouble.add]

/-- C2 (amended): `at(t)` returns `origin + t * direction` for every ray
and every t; `at(1) = origin + direction` for every ray (including rays
with non-finite direction components); `at(0) = origin` for every ray
whose direction components are all finite. -/
theorem ray_at_spec_amended :
    (∀ (r : ray) (t : EDouble), r.atParam t = vec3.add r.origin (smulLeft t r.dir)) ∧
    (∀ r : ray, r.atParam (.fin 1) = vec3.add r.origin r.dir) ∧
    (∀ r : ray, r.dir.allFinite = true → r.atParam (.fin 0) = r.origin) := by
  refine ⟨fun r t => rfl, ?_, ?_⟩
  · intro r
    have hs : smulLeft (.fin 1) r.direction = r.direction := by
      rw [vec3.eq_iff]
      refine ⟨?_, ?_, ?_⟩ <;>
        simp only [smulLeft, vec3.x_mk3, vec3.y_mk3, vec3.z_mk3] <;>
        exact EDouble.oneMul _
    show vec3.add r.start (smulLeft (.fin 1) r.direction) = vec3.add r.start r.direction
    rw [hs]
  · intro r hf
    simp only [ray.dir, vec3.allFinite, Bool.and_eq_true] at hf
    obtain ⟨⟨hxf, hyf⟩, hzf⟩ := hf
    obtain ⟨qx, hx⟩ := (EDouble.isFinite_iff _).mp hxf
    obtain ⟨qy, hy⟩ := (EDouble.isFinite_iff _).mp hyf
    obtain ⟨qz, hz⟩ := (EDouble.isFinite_iff _).mp hzf
    show vec3.add r.start (smulLeft (.fin 0) r.direction) = r.start
    rw [vec3.eq_iff]
    refine ⟨?_, ?_, ?_⟩ <;>
      simp only [vec3.add, smulLeft, vec3.x_mk3, vec3.y_mk3, vec3.z_mk3]
    · rw [hx]; exact EDouble.addZeroMul _ _
    · rw [hy]; exact EDouble.addZeroMul _ _
    · rw [hz]; exact EDouble.addZeroMul _ _

/-- Witness for C2 (amended) at origin (5,6,7), direction (1,2,3). -/
theorem ray_at_spec_amended_witness :
    (ray.mk (vec3.mk3 (.fin 5) (.fin 6) (.fin 7))
        (vec3.mk3 (.fin 1) (.fin 2) (.fin 3))).dir.allFinite = true ∧
    (ray.mk (vec3.mk3 (.fin 5) (.fin 6) (.fin 7))
        (vec3.mk3 (.fin 1) (.fin 2) (.fin 3))).atParam (.fin 0)
      = (ray.mk (vec3.mk3 (.fin 5) (.fin 6) (.fin 7))
        (vec3.mk3 (.fin 1) (.fin 2) (.fin 3))).origin :=
  ⟨by decide,
   ray_at_spec_amended.2.2
     (ray.mk (vec3.mk3 (.fin 5) (.fin 6) (.fin 7)) (vec3.mk3 (.fin 1) (.fin 2) (.fin 3)))
     (by decide)⟩

/-- C5: `unit_vector` is definitionally `self / self.length()` with
`length = sqrt(length_squared)`; when the length is zero the resulting
components are infinities or NaN (never finite), not an error. -/
theorem unit_vector_spec :
    (∀ v : vec3, v.unit_vector = v.divScalar v.length) ∧
    (∀ v : vec3, v.length = EDouble.sqrt v.length_squared) ∧
    (∀ v : vec3, v.length = .fin 0 →
      v.unit_vector.x.isFinite = false ∧
      v.unit_vector.y.isFinite = false ∧
      v.unit_vector.z.isFinite = false) := by
  refine ⟨fun v => rfl, fun v => rfl, ?_⟩
  intro v h
  refine ⟨?_, ?_, ?_⟩
  · show (EDouble.div v.x v.length).isFinite = false
    rw [h]; exact EDouble.divZeroSpecial _
  · show (EDouble.div v.y v.length).isFinite = false
    rw [h]; exact EDouble.divZeroSpecial _
  · show (EDouble.div v.z v.length).isFinite = false
    rw [h]; exact EDouble.divZeroSpecial _

/-- Witness for C5 at the zero vector, whose length is zero and whose
unit vector has a NaN first component. -/
theorem unit_vector_spec_witness :
    (vec3.mk3 (.fin 0) (.fin 0) (.fin 0)).length = .fin 0 ∧
    (vec3.mk3 (.fin 0) (.fin 0) (.fin 0)).unit_vector.x.isFinite = false := by
  have hlen : (vec3.mk3 (.fin 0) (.fin 0) (.fin 0)).length = .fin 0 := by
    simp [vec3.length, vec3.length_squared, EDouble.mul, EDouble.add,
      EDouble.sqrt, Rat.sqrt]
  exact ⟨hlen, (unit_vector_spec.2.2 (vec3.mk3 (.fin 0) (.fin 0) (.fin 0)) hlen).1⟩

/-- C6: compound division assignment is exactly compound multiplication
assignment by the reciprocal (it is defined that way in the source); the
reciprocal of 0 is `+Inf`, and dividing any vector by 0 in place yields
only non-finite (infinite or NaN) components, with no guard. -/
theorem div_assign_spec :
    (∀ (v : vec3) (t : EDouble), v.div_assign t = v.mul_assign (EDouble.div (.fin 1) t)) ∧
    (EDouble.div (.fin 1) (.fin 0) = .posInf) ∧
    (∀ v : vec3,
      (v.div_assign (.fin 0)).x.isFinite = false ∧
      (v.div_assign (.fin 0)).y.isFinite = false ∧
      (v.div_assign (.fin 0)).z.isFinite = false) := by
  have h10 : EDouble.div (.fin 1) (.fin 0) = .posInf := by
    simp [EDouble.div]
  refine ⟨fun v t => rfl, h10, ?_⟩
  intro v
  refine ⟨?_, ?_, ?_⟩
  · show (EDouble.mul v.x (EDouble.div (.fin 1) (.fin 0))).isFinite = false
    rw [h10]; exact EDouble.mulPosInfSpecial _
  · show (EDouble.mul v.y (EDouble.div (.fin 1) (.fin 0))).isFinite = false
    rw [h10]; exact EDouble.mulPosInfSpecial _
  · show (EDouble.mul v.z (EDouble.div (.fin 1) (.fin 0))).isFinite = false
    rw [h10]; exact EDouble.mulPosInfSpecial _

/-- C7 as stated is false: `v + (-v)` is not the zero vector for every v;
with v = (+Inf, 0, 0) the first component is `Inf + -Inf = NaN`. -/
theorem add_neg_cex :
    vec3.add (vec3.mk3 .posInf (.fin 0) (.fin 0))
        (vec3.neg (vec3.mk3 .posInf (.fin 0) (.fin 0))) ≠ vec3.zero := by
  simp [vec3.add, vec3.neg, vec3.zero_def, EDouble.add, EDouble.neg]

/-- C7 (amended): `v + (-v)` is the zero vector for every v whose
components are all finite; `v + 0vector = v` for every v (including
non-finite components); negation returns the componentwise-negated
vector and leaves its operand untouched. -/
theorem add_neg_spec_amended :
    (∀ v : vec3, v.allFinite = true → v.add v.neg = vec3.zero) ∧
    (∀ v : vec3, v.add vec3.zero = v) ∧
    (∀ v : vec3, v.neg = vec3.mk3 (EDouble.neg v.x) (EDouble.neg v.y) (EDouble.neg v.z)) := by
  refine ⟨?_, ?_, fun v => rfl⟩
  · intro v hf
    simp only [vec3.allFinite, Bool.and_eq_true] at hf
    obtain ⟨⟨hxf, hyf⟩, hzf⟩ := hf
    obtain ⟨qx, hx⟩ := (EDouble.isFinite_iff _).mp hxf
    obtain ⟨qy, hy⟩ := (EDouble.isFinite_iff _).mp hyf
    obtain ⟨qz, hz⟩ := (EDouble.isFinite_iff _).mp hzf
    rw [vec3.eq_iff]
    refine ⟨?_, ?_, ?_⟩ <;>
      simp only [vec3.add, vec3.neg, vec3.zero_def, vec3.x_mk3, vec3.y_mk3, vec3.z_mk3]
    · rw [hx]; simp [EDouble.add, EDouble.neg]
    · rw [hy]; simp [EDouble.add, EDouble.neg]
    · rw [hz]; simp [EDouble.add, EDouble.neg]
  · intro v
    rw [vec3.eq_iff]
    refine ⟨?_, ?_, ?_⟩ <;>
      simp only [vec3.add, vec3.zero_def, vec3.x_mk3, vec3.y_mk3, vec3.z_mk3] <;>
      exact EDouble.addZero _

/-- Witness for C7 (amended) at the all-finite vector (1,2,3). -/
theorem add_neg_spec_amended_witness :
    (vec3.mk3 (.fin 1) (.fin 2) (.fin 3)).allFinite = true ∧
    (vec3.mk3 (.fin 1) (.fin 2) (.fin 3)).add
        (vec3.mk3 (.fin 1) (.fin 2) (.fin 3)).neg = vec3.zero :=
  ⟨by decide, add_neg_spec_amended.1 (vec3.mk3 (.fin 1) (.fin 2) (.fin 3)) (by decide)⟩

/-- C8: the cross product is anti-commutative for all vectors (also with
non-finite components, where both sides propagate the same special
values), and it is right-handed: (1,0,0) × (0,1,0) = (0,0,1). -/
theorem cross_antisymm_spec :
    (∀ u v : vec3, u.cross v = (v.cross u).neg) ∧
    vec3.cross (vec3.mk3 (.fin 1) (.fin 0) (.fin 0)) (vec3.mk3 (.fin 0) (.fin 1) (.fin 0))
      = vec3.mk3 (.fin 0) (.fin 0) (.fin 1) := by
  constructor
  · intro u v
    rw [vec3.eq_iff]
    refine ⟨?_, ?_, ?_⟩ <;>
      simp only [vec3.cross, vec3.neg, vec3.x_mk3, vec3.y_mk3, vec3.z_mk3]
    · rw [EDouble.mulComm v.y u.z, EDouble.mulComm v.z u.y, ← EDouble.subNegRev]
    · rw [EDouble.mulComm v.z u.x, EDouble.mulComm v.x u.z, ← EDouble.subNegRev]
    · rw [EDouble.mulComm v.x u.y, EDouble.mulComm v.y u.x, ← EDouble.subNegRev]
  · rw [vec3.eq_iff]
    refine ⟨?_, ?_, ?_⟩ <;>
      simp [vec3.cross, EDouble.mul, EDouble.sub, EDouble.add, EDouble.neg]
